import Mathlib

/-!
Verification of the Texas Hold'em backend's pot-settlement and request
validation logic, shallowly embedded from the repository sources:

* `backend/app/services/poker_service.py` — `PokerService._evaluate_all_hands`,
  `PokerService._calculate_winnings`, `PokerService._estimate_player_contribution`;
* `backend/app/models/hand.py` — the pydantic request models
  `PlayerDataRequest` and `HandRequest` with their validators.

Python dicts are modelled as insertion-ordered association lists with the
exact dict update semantics (updating an existing key keeps its position,
a fresh key is appended).  Python's arbitrary-precision `int` is `Int`;
Python floor division `//` and modulo `%` are `Int.fdiv` / `Int.fmod`.
The third-party `pokerkit.StandardHighHand` ranking is abstracted as a
caller-supplied evaluation oracle over an arbitrary linearly ordered
strength type, which is all the settlement code observes about it.
-/

/-- One entry of a player's `actions` list, as consumed by
`PokerService._estimate_player_contribution` (poker_service.py lines 170-172)
and produced at the boundary by `PlayerActionRequest` (hand.py lines 55-59):
only the `action` string and the integer `amount` are ever read by the
modelled code (the `street` field is never consulted).  `amount` is a plain,
unvalidated Python `int` (default 0), so it may be any integer. -/
structure PlayerAction where
  action : String
  amount : Int
deriving DecidableEq

/-- The per-player dict consumed by the service functions.  Fields read by the
modelled code: `player_id` (line 114/152), `position` (lines 175/177),
`hole_cards` (lines 106/110), `actions` (line 170) and `folded`
(line 106, via `.get('folded', False)`, so a missing key reads as `false`).
Other dict keys (`stack_size`, ...) are never read by the modelled functions. -/
structure PlayerData where
  player_id : Int
  position : Int
  hole_cards : String
  actions : List PlayerAction
  folded : Bool
deriving DecidableEq

/-- Python dict assignment `d[k] = v` on an insertion-ordered association
list: an existing key keeps its position and gets the new value, a fresh key
is appended at the end. -/
def dictInsert {κ α : Type} [DecidableEq κ] (k : κ) (v : α) : List (κ × α) → List (κ × α)
  | [] => [(k, v)]
  | (k', v') :: d => if k' = k then (k, v) :: d else (k', v') :: dictInsert k v d

/-- Python dict lookup: `d[k]` when present (`some`), `k in d` is
`(dictGet d k).isSome`. -/
def dictGet {κ α : Type} [DecidableEq κ] (d : List (κ × α)) (k : κ) : Option α :=
  match d with
  | [] => none
  | (k', v) :: d => if k' = k then some v else dictGet d k

/-- The action types whose amounts count toward a player's estimated pot
contribution (poker_service.py line 171).  Note the source list includes
`'bet'` even though the API's `ActionType` enum has no such member. -/
def counted_actions : List String := ["call", "raise", "bet", "all_in"]

/-- The running total accumulated by the loop of
`PokerService._estimate_player_contribution` (poker_service.py lines 169-172):
the sum of `amount` over the player's `call`/`raise`/`bet`/`all_in` actions. -/
def action_total (p : PlayerData) : Int :=
  p.actions.foldl (fun t a => if a.action ∈ counted_actions then t + a.amount else t) 0

/-- `PokerService._estimate_player_contribution` (poker_service.py
lines 164-180).  When the accumulated total is exactly 0 the function falls
back to the hardcoded constants 40 (position 2, "BB") and 20 (position 1,
"SB"); the hand's actual `small_blind` / `big_blind` values are not passed to
this function at all. -/
def estimate_player_contribution (p : PlayerData) : Int :=
  if action_total p = 0 ∧ p.position = 2 then 40
  else if action_total p = 0 ∧ p.position = 1 then 20
  else action_total p

/-- Predicate used to phrase claims about the fallback: does the player have
any recorded `call`/`raise`/`bet`/`all_in` action with a strictly positive
amount? -/
def has_positive_counted_action (p : PlayerData) : Bool :=
  p.actions.any (fun a => counted_actions.contains a.action && decide (0 < a.amount))

/-- `PokerService._evaluate_all_hands` (poker_service.py lines 92-119).
A player with empty (falsy) `hole_cards` or with `folded` true is skipped
(line 106); otherwise the dict entry
`evaluations[player_id] = (best_hand, str(best_hand))` is written (line 114),
where `best_hand = StandardHighHand.from_game(hole_cards, board_cards)`.
Since `pokerkit` is an external library, the hand strength is abstracted as an
oracle `evalFn` returning the (comparable strength, rendered string) pair;
the settlement code only ever compares these values and prints the string. -/
def evaluate_all_hands {H : Type} (evalFn : String → String → H × String)
    (players : List PlayerData) (board_cards : String) : List (Int × H × String) :=
  players.foldl
    (fun evals p =>
      if p.hole_cards.isEmpty || p.folded then evals
      else dictInsert p.player_id (evalFn p.hole_cards board_cards) evals)
    []

/-- Python `max` over a non-empty iterable, seeded with the first element. -/
def listMax {H : Type} [LinearOrder H] (x : H) (l : List H) : H := l.foldl max x

/-- `best_hand = max(hand for hand, _ in evaluations.values())`
(poker_service.py line 130), for a non-empty evaluations dict `e :: es`. -/
def best_of {H : Type} [LinearOrder H] (e : Int × H × String) (es : List (Int × H × String)) : H :=
  listMax e.2.1 (es.map (fun x => x.2.1))

/-- The winners list comprehension (poker_service.py lines 132-135): the ids
of entries whose hand equals the best hand, in dict insertion order (which is
the order the non-folded players appeared in the input list). -/
def winners_of {H : Type} [LinearOrder H] (ev : List (Int × H × String)) (best : H) : List Int :=
  (ev.filter (fun x => x.2.1 = best)).map Prod.fst

/-- The winner payout loop (poker_service.py lines 137-142):
`winnings_by_player[winner_id] = win_amount + (1 if i < remainder else 0)`
over `enumerate(winners)`.  The source's `if winners:` guard is omitted
because folding the empty list already produces the empty dict. -/
def winner_fold (win_amount remainder : Int) (winners : List Int) : List (Int × Int) :=
  (winners.enumFrom 0).foldl
    (fun d iw => dictInsert iw.2 (win_amount + if (iw.1 : Int) < remainder then 1 else 0) d)
    []

/-- The non-winner loss loop (poker_service.py lines 144-155): every player in
the input list whose id has no entry yet gets
`winnings_by_player[player_id] = -_estimate_player_contribution(player)`. -/
def loss_fold (players : List PlayerData) (d : List (Int × Int)) : List (Int × Int) :=
  players.foldl
    (fun d p =>
      if (dictGet d p.player_id).isSome then d
      else dictInsert p.player_id (-(estimate_player_contribution p)) d)
    d

/-- The readable best-hands dict (poker_service.py lines 157-160):
`{str(player_id): desc for player_id, (_, desc) in evaluations.items()}`. -/
def best_hands_of {H : Type} (ev : List (Int × H × String)) : List (String × String) :=
  ev.foldl (fun d x => dictInsert (toString x.1) x.2.2 d) []

/-- `PokerService._calculate_winnings` (poker_service.py lines 121-162).
Returns `(winners, winnings_by_player, best_hands)`.  An empty evaluations
dict short-circuits to three empty results (lines 126-127).  Python's `//`
and `%` on ints are floor division and floor modulo, i.e. `Int.fdiv` and
`Int.fmod`. -/
def calculate_winnings {H : Type} [LinearOrder H] (evaluations : List (Int × H × String))
    (pot_size : Int) (players : List PlayerData) :
    List Int × List (Int × Int) × List (String × String) :=
  match evaluations with
  | [] => ([], [], [])
  | e :: es =>
      (winners_of (e :: es) (best_of e es),
       loss_fold players
         (winner_fold
            (pot_size.fdiv ((winners_of (e :: es) (best_of e es)).length : Int))
            (pot_size.fmod ((winners_of (e :: es) (best_of e es)).length : Int))
            (winners_of (e :: es) (best_of e es))),
       best_hands_of (e :: es))

/-- The settlement boundary for the pot: `HandRequest.pot_size` is declared
`Field(..., gt=0)` (hand.py line 95), so pydantic raises a ValueError — which
main.py translates to a 400 client error — for any pot that is not strictly
positive; a request that passes reaches `_calculate_winnings`, which itself
performs no pot check whatsoever. -/
def settle_hand_request {H : Type} [LinearOrder H] (evaluations : List (Int × H × String))
    (pot_size : Int) (players : List PlayerData) :
    Except String (List Int × List (Int × Int) × List (String × String)) :=
  if 0 < pot_size then Except.ok (calculate_winnings evaluations pot_size players)
  else Except.error ("InvalidInput")

/-- Valid rank characters (hand.py lines 75, 105). -/
def valid_ranks : List Char := ['2', '3', '4', '5', '6', '7', '8', '9', 'T', 'J', 'Q', 'K', 'A']

/-- Valid suit characters (hand.py lines 76, 106). -/
def valid_suits : List Char := ['h', 'd', 'c', 's']

/-- Python slicing `v[i:i+2] for i in range(0, len(v), 2)`: two-character
chunks; an odd trailing character yields a one-character token, exactly as the
Python slice does. -/
def cardTokens : List Char → List String
  | [] => []
  | [a] => [String.mk [a]]
  | a :: b :: rest => String.mk [a, b] :: cardTokens rest

/-- `PlayerDataRequest.validate_hole_cards` (hand.py lines 69-88) together
with the `min_length=4, max_length=4` Field constraint (line 65): exactly four
characters, ranks at positions 0 and 2, suits at positions 1 and 3, and
`v[:2] != v[2:4]` (no duplicate card within the two hole cards).  Any other
shape raises ValueError. -/
def validate_hole_cards (v : String) : Bool :=
  match v.data with
  | [c0, c1, c2, c3] =>
      valid_ranks.contains c0 && valid_ranks.contains c2 &&
      valid_suits.contains c1 && valid_suits.contains c3 &&
      !((c0 == c2) && (c1 == c3))
  | _ => false

/-- Well-formedness of one two-character board token (hand.py lines 110-114). -/
def board_token_ok (t : String) : Bool :=
  match t.data with
  | [r, s] => valid_ranks.contains r && valid_suits.contains s
  | _ => false

/-- `HandRequest.validate_board_cards` (hand.py lines 99-121) together with
the `min_length=10, max_length=10` Field constraint (line 94): exactly ten
characters, five well-formed tokens, pairwise distinct
(`len(set(cards)) == 5`). -/
def validate_board_cards (v : String) : Bool :=
  decide (v.length = 10) && (cardTokens v.data).all board_token_ok &&
  decide ((cardTokens v.data).Nodup)

/-- The pydantic request model `PlayerDataRequest` (hand.py lines 62-88). -/
structure PlayerReq where
  player_id : Int
  position : Int
  hole_cards : String
  stack_size : Int
  actions : List PlayerAction
deriving DecidableEq

/-- `PlayerActionRequest.action : ActionType` (hand.py line 57): the action
string must be a member of the `ActionType` enum (note: no `bet`). -/
def action_type_ok (a : PlayerAction) : Bool :=
  ["fold", "check", "call", "raise", "all_in"].contains a.action

/-- Per-player request validation: `hole_cards` Field length 4 (line 65),
`stack_size` `gt=0` (line 66), every action a valid `ActionType`, and the
`validate_hole_cards` validator.  `amount` is unvalidated. -/
def validate_player_req (p : PlayerReq) : Bool :=
  decide (p.hole_cards.length = 4) && decide (0 < p.stack_size) &&
  p.actions.all action_type_ok && validate_hole_cards p.hole_cards

/-- `HandRequest.validate_players` (hand.py lines 123-149) as it actually
executes.  Under pydantic v1 semantics the `values` argument of a validator
holds only the previously validated fields, and fields are validated in
declaration order; `players` is the FIRST field of `HandRequest` (line 93),
declared before `board_cards` (line 94).  Hence `'board_cards' in values`
(line 126) is always false and the cross board/hole duplicate-card check
(lines 127-142) is dead code; only the duplicate-player-ID check
(lines 144-147) ever runs. -/
def validate_players (v : List PlayerReq) : Bool :=
  decide ((v.map PlayerReq.player_id).Nodup)

/-- Whole-request validation for `HandRequest` (hand.py lines 91-149): the
request is accepted iff every field constraint and every validator passes
(pydantic reports a ValueError — a 400 client error in main.py — otherwise).
Field constraints: 2-6 players (line 93), board length 10 (line 94),
`pot_size > 0` (line 95), `small_blind > 0` (line 96), `big_blind > 0`
(line 97). -/
def validate_hand_request (players : List PlayerReq) (board_cards : String)
    (pot_size small_blind big_blind : Int) : Bool :=
  decide (2 ≤ players.length) && decide (players.length ≤ 6) &&
  players.all validate_player_req && validate_players players &&
  validate_board_cards board_cards &&
  decide (0 < pot_size) && decide (0 < small_blind) && decide (0 < big_blind)

/-- The combined card tokens of a request — the five board tokens followed by
every player's hole tokens, in request order.  This is the collection over
which the spec requires duplicate detection (and which the dead check of
`validate_players` would have examined). -/
def all_card_tokens (players : List PlayerReq) (board_cards : String) : List String :=
  cardTokens board_cards.data ++ (players.map (fun p => cardTokens p.hole_cards.data)).flatten

/-- A concrete strength oracle for the folded-player test: pocket aces get
strength 100, any other hole cards strength 1, so a folded player holding
`AhAs` would rank strictly above every other player if it were evaluated. -/
def c3_eval_fn : String → String → Nat × String :=
  fun hole _ => if hole = "AhAs" then (100, "aces") else (1, "weak")

/-- Concrete players for the folded-player test: player 1 holds the best hand
but has folded; player 2 holds a weak hand and has not folded. -/
def c3_players : List PlayerData :=
  [⟨1, 0, "AhAs", [], true⟩, ⟨2, 1, "2c3d", [], false⟩]

/-- A non-winning player whose only recorded action is a `call` with the
negative amount -5 (the `amount` field is an unvalidated Python int). -/
def c10_player : PlayerData := ⟨1, 0, "AhKs", [⟨"call", -5⟩], false⟩

theorem dictGet_insert_self {κ α : Type} [DecidableEq κ] (k : κ) (v : α) (d : List (κ × α)) :
    dictGet (dictInsert k v d) k = some v := by
  induction d with
  | nil => simp [dictInsert, dictGet]
  | cons kv d ih =>
      obtain ⟨k', v'⟩ := kv
      by_cases h : k' = k
      · subst h
        simp [dictInsert, dictGet]
      · simp [dictInsert, dictGet, h, ih]

theorem dictGet_insert_ne {κ α : Type} [DecidableEq κ] {k k' : κ} (v : α) (d : List (κ × α))
    (h : k' ≠ k) : dictGet (dictInsert k v d) k' = dictGet d k' := by
  induction d with
  | nil => simp [dictInsert, dictGet, Ne.symm h]
  | cons kv d ih =>
      obtain ⟨k₀, v₀⟩ := kv
      by_cases h0 : k₀ = k
      · subst h0
        by_cases h1 : k₀ = k'
        · exact absurd h1.symm h
        · simp [dictInsert, dictGet, h1]
      · by_cases h1 : k₀ = k'
        · simp [dictInsert, dictGet, h0, h1, h]
        · simp [dictInsert, dictGet, h0, h1, ih]

theorem dictGet_none_insert {κ α : Type} [DecidableEq κ] {k : κ} (v : α) {d : List (κ × α)}
    (h : dictGet d k = none) : dictInsert k v d = d ++ [(k, v)] := by
  induction d with
  | nil => rfl
  | cons kv d ih =>
      obtain ⟨k₀, v₀⟩ := kv
      by_cases h0 : k₀ = k
      · subst h0
        simp [dictGet] at h
      · simp only [dictGet, if_neg h0] at h
        simp [dictInsert, h0, ih h]

theorem dictGet_isSome_iff {κ α : Type} [DecidableEq κ] (d : List (κ × α)) (k : κ) :
    (dictGet d k).isSome = true ↔ k ∈ d.map Prod.fst := by
  induction d with
  | nil => simp [dictGet]
  | cons kv d ih =>
      obtain ⟨k₀, v₀⟩ := kv
      by_cases h0 : k₀ = k
      · subst h0
        simp [dictGet]
      · simp [dictGet, h0, ih, Ne.symm h0]

theorem dictGet_of_mem_nodup {κ α : Type} [DecidableEq κ] {d : List (κ × α)} {k : κ} {v : α}
    (hmem : (k, v) ∈ d) (hnd : (d.map Prod.fst).Nodup) : dictGet d k = some v := by
  induction d with
  | nil => simp at hmem
  | cons kv d ih =>
      obtain ⟨k₀, v₀⟩ := kv
      simp only [List.map_cons, List.nodup_cons] at hnd
      rcases List.mem_cons.mp hmem with h | h
      · cases h
        simp [dictGet]
      · have hk : k ∈ d.map Prod.fst := List.mem_map_of_mem Prod.fst h
        have hne : k₀ ≠ k := fun e => hnd.1 (by rw [e]; exact hk)
        simp [dictGet, hne, ih h hnd.2]

theorem dictGet_append_of_none {κ α : Type} [DecidableEq κ] {d₁ : List (κ × α)}
    (d₂ : List (κ × α)) {k : κ} (h : dictGet d₁ k = none) :
    dictGet (d₁ ++ d₂) k = dictGet d₂ k := by
  induction d₁ with
  | nil => rfl
  | cons kv d ih =>
      obtain ⟨k₀, v₀⟩ := kv
      by_cases h0 : k₀ = k
      · subst h0
        simp [dictGet] at h
      · simp only [dictGet, if_neg h0] at h
        simp [dictGet, h0, ih h]

theorem listMax_mem {H : Type} [LinearOrder H] (x : H) (l : List H) : listMax x l ∈ x :: l := by
  induction l generalizing x with
  | nil => simp [listMax]
  | cons a l ih =>
      simp only [listMax, List.foldl_cons]
      have h := ih (max x a)
      simp only [listMax] at h
      rcases List.mem_cons.mp h with h1 | h1
      · rw [h1]
        rcases max_choice x a with hm | hm
        · rw [hm]; exact List.mem_cons_self _ _
        · rw [hm]; exact List.mem_cons_of_mem _ (List.mem_cons_self _ _)
      · exact List.mem_cons_of_mem _ (List.mem_cons_of_mem _ h1)

theorem le_listMax {H : Type} [LinearOrder H] (x : H) (l : List H) :
    ∀ y ∈ x :: l, y ≤ listMax x l := by
  induction l generalizing x with
  | nil =>
      intro y hy
      simp only [List.mem_singleton] at hy
      simp [listMax, hy]
  | cons a l ih =>
      intro y hy
      simp only [listMax, List.foldl_cons]
      have hih := ih (max x a)
      simp only [listMax] at hih
      rcases List.mem_cons.mp hy with rfl | hy'
      · exact le_trans (le_max_left y a) (hih _ (List.mem_cons_self _ _))
      · rcases List.mem_cons.mp hy' with rfl | hy''
        · exact le_trans (le_max_right x y) (hih _ (List.mem_cons_self _ _))
        · exact hih y (List.mem_cons_of_mem _ hy'')

theorem best_of_attained {H : Type} [LinearOrder H] (e : Int × H × String)
    (es : List (Int × H × String)) : ∃ x ∈ e :: es, x.2.1 = best_of e es := by
  have h := listMax_mem e.2.1 (es.map (fun x => x.2.1))
  simp only [best_of]
  rcases List.mem_cons.mp h with h1 | h1
  · exact ⟨e, List.mem_cons_self _ _, h1.symm⟩
  · obtain ⟨x, hx, hx2⟩ := List.mem_map.mp h1
    exact ⟨x, List.mem_cons_of_mem _ hx, hx2⟩

theorem winners_of_sublist {H : Type} [LinearOrder H] (ev : List (Int × H × String)) (best : H) :
    (winners_of ev best).Sublist (ev.map Prod.fst) := by
  exact List.Sublist.map Prod.fst (List.filter_sublist ev)

theorem winners_of_nodup {H : Type} [LinearOrder H] {ev : List (Int × H × String)} (best : H)
    (hnd : (ev.map Prod.fst).Nodup) : (winners_of ev best).Nodup :=
  List.Nodup.sublist (winners_of_sublist ev best) hnd

theorem winners_of_ne_nil {H : Type} [LinearOrder H] (e : Int × H × String)
    (es : List (Int × H × String)) : winners_of (e :: es) (best_of e es) ≠ [] := by
  obtain ⟨x, hx, hx2⟩ := best_of_attained e es
  have hf : x ∈ (e :: es).filter (fun y => y.2.1 = best_of e es) :=
    List.mem_filter.mpr ⟨hx, by simp [hx2]⟩
  exact List.ne_nil_of_mem (List.mem_map_of_mem Prod.fst hf)

theorem mem_enumFrom_get (ws : List Int) :
    ∀ (n i : Nat) (hi : i < ws.length), (n + i, ws.get ⟨i, hi⟩) ∈ ws.enumFrom n := by
  induction ws with
  | nil => intro n i hi; simp at hi
  | cons w ws ih =>
      intro n i hi
      cases i with
      | zero => simp [List.enumFrom_cons]
      | succ i =>
          have h := ih (n + 1) i (by simpa using hi)
          simp only [List.enumFrom_cons]
          refine List.mem_cons_of_mem _ ?_
          have : n + (i + 1) = (n + 1) + i := by omega
          rw [this]
          exact h

theorem winner_fold_from_eq (a r : Int) :
    ∀ (ws : List Int) (n : Nat) (init : List (Int × Int)),
      (∀ w ∈ ws, dictGet init w = none) → ws.Nodup →
      (ws.enumFrom n).foldl
          (fun d iw => dictInsert iw.2 (a + if (iw.1 : Int) < r then 1 else 0) d) init
        = init ++ (ws.enumFrom n).map (fun iw => (iw.2, a + if (iw.1 : Int) < r then 1 else 0)) := by
  intro ws
  induction ws with
  | nil => intro n init _ _; simp
  | cons w ws ih =>
      intro n init hfresh hnd
      have hnd' := List.nodup_cons.mp hnd
      simp only [List.enumFrom_cons, List.foldl_cons, List.map_cons]
      rw [dictGet_none_insert _ (hfresh w (List.mem_cons_self _ _))]
      rw [ih (n + 1) (init ++ [(w, a + if ((n : Nat) : Int) < r then 1 else 0)]) ?_ hnd'.2]
      · simp
      · intro w' hw'
        have h1 := hfresh w' (List.mem_cons_of_mem _ hw')
        have h2 : w ≠ w' := fun e => hnd'.1 (e ▸ hw')
        rw [dictGet_append_of_none _ h1]
        simp [dictGet, h2]

theorem winner_fold_eq (a r : Int) (ws : List Int) (hnd : ws.Nodup) :
    winner_fold a r ws
      = (ws.enumFrom 0).map (fun iw => (iw.2, a + if (iw.1 : Int) < r then 1 else 0)) := by
  have h := winner_fold_from_eq a r ws 0 [] (fun w _ => rfl) hnd
  simpa [winner_fold] using h

theorem enum_pairs_keys (f : Nat → Int) (ws : List Int) (n : Nat) :
    ((ws.enumFrom n).map (fun iw => (iw.2, f iw.1))).map Prod.fst = ws := by
  rw [List.map_map]
  have h : ∀ iw ∈ ws.enumFrom n, (Prod.fst ∘ fun iw => (iw.2, f iw.1)) iw = Prod.snd iw :=
    fun iw _ => rfl
  rw [List.map_congr_left h, List.enumFrom_map_snd]

theorem winner_fold_keys (a r : Int) (ws : List Int) (hnd : ws.Nodup) :
    (winner_fold a r ws).map Prod.fst = ws := by
  rw [winner_fold_eq a r ws hnd]
  exact enum_pairs_keys (fun i => a + if (i : Int) < r then 1 else 0) ws 0

theorem winner_fold_lookup (a r : Int) (ws : List Int) (hnd : ws.Nodup)
    (i : Nat) (hi : i < ws.length) :
    dictGet (winner_fold a r ws) (ws.get ⟨i, hi⟩)
      = some (a + if (i : Int) < r then 1 else 0) := by
  rw [winner_fold_eq a r ws hnd]
  apply dictGet_of_mem_nodup
  · refine List.mem_map.mpr ⟨(i, ws.get ⟨i, hi⟩), ?_, rfl⟩
    have h := mem_enumFrom_get ws 0 i hi
    simpa using h
  · rw [enum_pairs_keys (fun j => a + if (j : Int) < r then 1 else 0) ws 0]
    exact hnd

theorem loss_fold_preserve :
    ∀ (pl : List PlayerData) (d : List (Int × Int)) (k : Int),
      (dictGet d k).isSome = true → dictGet (loss_fold pl d) k = dictGet d k := by
  intro pl
  induction pl with
  | nil => intro d k _; rfl
  | cons p pl ih =>
      intro d k hk
      simp only [loss_fold, List.foldl_cons]
      by_cases hp : (dictGet d p.player_id).isSome = true
      · rw [if_pos hp]
        exact ih d k hk
      · rw [if_neg hp]
        have hne : k ≠ p.player_id := fun e => hp (by rw [← e]; exact hk)
        have hkeep := dictGet_insert_ne (κ := Int)
          (-(estimate_player_contribution p)) d hne
        have hsome : (dictGet (dictInsert p.player_id (-(estimate_player_contribution p)) d)
            k).isSome = true := by rw [hkeep]; exact hk
        have := ih (dictInsert p.player_id (-(estimate_player_contribution p)) d) k hsome
        simp only [loss_fold] at this ⊢
        rw [this, hkeep]

theorem loss_fold_adds :
    ∀ (pl : List PlayerData) (d : List (Int × Int)) (k : Int),
      dictGet d k = none → (∃ p ∈ pl, p.player_id = k) →
      ∃ q ∈ pl, q.player_id = k ∧
        dictGet (loss_fold pl d) k = some (-(estimate_player_contribution q)) := by
  intro pl
  induction pl with
  | nil => intro d k _ h; simp at h
  | cons p pl ih =>
      intro d k hnone hex
      by_cases hpk : p.player_id = k
      · have hdp : dictGet d p.player_id = none := by rw [hpk]; exact hnone
        have hstep : loss_fold (p :: pl) d
            = loss_fold pl (dictInsert p.player_id (-(estimate_player_contribution p)) d) := by
          simp only [loss_fold, List.foldl_cons, hdp, Option.isSome_none]
          rw [if_neg (by simp)]
        have hself := dictGet_insert_self p.player_id (-(estimate_player_contribution p)) d
        have hsome : (dictGet (dictInsert p.player_id (-(estimate_player_contribution p)) d)
            p.player_id).isSome = true := by rw [hself]; rfl
        have hpres := loss_fold_preserve pl
          (dictInsert p.player_id (-(estimate_player_contribution p)) d) p.player_id hsome
        refine ⟨p, List.mem_cons_self _ _, hpk, ?_⟩
        rw [hstep, ← hpk, hpres, hself]
      · have hq0 : ∃ q ∈ pl, q.player_id = k := by
          obtain ⟨q0, hq0, hq0id⟩ := hex
          rcases List.mem_cons.mp hq0 with rfl | hmem
          · exact absurd hq0id hpk
          · exact ⟨q0, hmem, hq0id⟩
        by_cases hp : (dictGet d p.player_id).isSome = true
        · have hstep : loss_fold (p :: pl) d = loss_fold pl d := by
            simp only [loss_fold, List.foldl_cons]
            rw [if_pos hp]
          obtain ⟨q, hq, hqid, hqget⟩ := ih d k hnone hq0
          exact ⟨q, List.mem_cons_of_mem _ hq, hqid, by rw [hstep]; exact hqget⟩
        · have hstep : loss_fold (p :: pl) d
              = loss_fold pl (dictInsert p.player_id (-(estimate_player_contribution p)) d) := by
            simp only [loss_fold, List.foldl_cons]
            rw [if_neg hp]
          have hnone' : dictGet (dictInsert p.player_id (-(estimate_player_contribution p)) d)
              k = none := by
            rw [dictGet_insert_ne _ d (fun e => hpk e.symm)]
            exact hnone
          obtain ⟨q, hq, hqid, hqget⟩ :=
            ih (dictInsert p.player_id (-(estimate_player_contribution p)) d) k hnone' hq0
          exact ⟨q, List.mem_cons_of_mem _ hq, hqid, by rw [hstep]; exact hqget⟩

theorem foldl_amount_nonneg (acts : List PlayerAction) :
    ∀ t : Int, 0 ≤ t → (∀ a ∈ acts, 0 ≤ a.amount) →
      0 ≤ acts.foldl (fun t a => if a.action ∈ counted_actions then t + a.amount else t) t := by
  induction acts with
  | nil => intro t ht _; exact ht
  | cons a acts ih =>
      intro t ht hall
      simp only [List.foldl_cons]
      by_cases hc : a.action ∈ counted_actions
      · rw [if_pos hc]
        exact ih _ (add_nonneg ht (hall a (List.mem_cons_self _ _)))
          (fun b hb => hall b (List.mem_cons_of_mem _ hb))
      · rw [if_neg hc]
        exact ih _ ht (fun b hb => hall b (List.mem_cons_of_mem _ hb))

theorem action_total_nonneg (p : PlayerData) (h : ∀ a ∈ p.actions, 0 ≤ a.amount) :
    0 ≤ action_total p :=
  foldl_amount_nonneg p.actions 0 le_rfl h

theorem estimate_nonneg (p : PlayerData) (h : ∀ a ∈ p.actions, 0 ≤ a.amount) :
    0 ≤ estimate_player_contribution p := by
  have ht := action_total_nonneg p h
  simp only [estimate_player_contribution]
  split
  · norm_num
  · split
    · norm_num
    · exact ht

theorem evaluate_keys_sub {H : Type} (f : String → String → H × String) :
    ∀ (pl : List PlayerData) (board : String) (acc : List (Int × H × String)) (k : Int),
      k ∈ (pl.foldl (fun evals p =>
            if p.hole_cards.isEmpty || p.folded then evals
            else dictInsert p.player_id (f p.hole_cards board) evals) acc).map Prod.fst →
      k ∈ acc.map Prod.fst ∨
        ∃ p ∈ pl, p.player_id = k ∧ (p.hole_cards.isEmpty || p.folded) = false := by
  intro pl
  induction pl with
  | nil => intro board acc k hk; exact Or.inl hk
  | cons p pl ih =>
      intro board acc k hk
      simp only [List.foldl_cons] at hk
      by_cases hc : (p.hole_cards.isEmpty || p.folded) = true
      · rw [if_pos hc] at hk
        rcases ih board acc k hk with h | ⟨q, hq, hrest⟩
        · exact Or.inl h
        · exact Or.inr ⟨q, List.mem_cons_of_mem _ hq, hrest⟩
      · rw [if_neg hc] at hk
        have hcf : (p.hole_cards.isEmpty || p.folded) = false := by simpa using hc
        rcases ih board _ k hk with h | ⟨q, hq, hrest⟩
        · have hmem : (dictGet (dictInsert p.player_id (f p.hole_cards board) acc) k).isSome
              = true := (dictGet_isSome_iff _ _).mpr h
          by_cases hek : p.player_id = k
          · exact Or.inr ⟨p, List.mem_cons_self _ _, hek, hcf⟩
          · have := dictGet_insert_ne (f p.hole_cards board) acc (fun e => hek e.symm)
            rw [this] at hmem
            exact Or.inl ((dictGet_isSome_iff _ _).mp hmem)
        · exact Or.inr ⟨q, List.mem_cons_of_mem _ hq, hrest⟩

theorem mem_keys_evaluate {H : Type} (f : String → String → H × String)
    (pl : List PlayerData) (board : String) (k : Int)
    (hk : k ∈ (evaluate_all_hands f pl board).map Prod.fst) :
    ∃ p ∈ pl, p.player_id = k ∧ (p.hole_cards.isEmpty || p.folded) = false := by
  simp only [evaluate_all_hands] at hk
  rcases evaluate_keys_sub f pl board [] k hk with h | h
  · simp at h
  · exact h

theorem calc_winners_subset {H : Type} [LinearOrder H] (ev : List (Int × H × String))
    (pot : Int) (pl : List PlayerData) (k : Int)
    (hk : k ∈ (calculate_winnings ev pot pl).1) : k ∈ ev.map Prod.fst := by
  cases ev with
  | nil => simp [calculate_winnings] at hk
  | cons e es =>
      exact (winners_of_sublist (e :: es) (best_of e es)).subset
        (by simpa [calculate_winnings] using hk)

theorem map_lookup_enum_pairs (f : Nat → Int) :
    ∀ (ws : List Int) (n : Nat), ws.Nodup →
      ws.map (fun w => (dictGet ((ws.enumFrom n).map (fun iw => (iw.2, f iw.1))) w).getD 0)
        = (ws.enumFrom n).map (fun iw => f iw.1) := by
  intro ws
  induction ws with
  | nil => intro n _; rfl
  | cons w ws ih =>
      intro n hnd
      have hnd' := List.nodup_cons.mp hnd
      simp only [List.enumFrom_cons, List.map_cons]
      congr 1
      · simp [dictGet]
      · have hcongr : ∀ w' ∈ ws,
            (dictGet ((w, f n) :: (ws.enumFrom (n + 1)).map (fun iw => (iw.2, f iw.1))) w').getD 0
              = (dictGet ((ws.enumFrom (n + 1)).map (fun iw => (iw.2, f iw.1))) w').getD 0 := by
          intro w' hw'
          have hne : w ≠ w' := fun e => hnd'.1 (e ▸ hw')
          simp [dictGet, hne]
        rw [List.map_congr_left hcongr]
        exact ih (n + 1) hnd'.2

theorem sum_base_extra (base r : Int) (hr : 0 ≤ r) :
    ∀ L : Nat, ((List.range L).map (fun (i : Nat) => base + if (i : Int) < r then 1 else 0)).sum
      = (L : Int) * base + min (L : Int) r := by
  intro L
  induction L with
  | zero =>
      simp only [List.range_zero, List.map_nil, List.sum_nil, Nat.cast_zero, zero_mul, zero_add]
      rw [min_eq_left hr]
  | succ L ih =>
      rw [List.range_succ, List.map_append, List.sum_append, ih]
      simp only [List.map_cons, List.map_nil, List.sum_cons, List.sum_nil, add_zero]
      push_cast
      by_cases h : (L : Int) < r
      · rw [if_pos h, min_eq_left (by omega : (L : Int) ≤ r),
          min_eq_left (by omega : (L : Int) + 1 ≤ r)]
        ring
      · rw [if_neg h, min_eq_right (by omega : r ≤ (L : Int)),
          min_eq_right (by omega : r ≤ (L : Int) + 1)]
        ring

theorem winner_fold_sum (pot : Int) (ws : List Int) (hnd : ws.Nodup) (hne : ws ≠ []) :
    (ws.map (fun w =>
        (dictGet (winner_fold (pot.fdiv (ws.length : Int)) (pot.fmod (ws.length : Int)) ws)
          w).getD 0)).sum = pot := by
  have hL : 0 < ws.length := List.length_pos.mpr hne
  have hLn : (0 : Int) < (ws.length : Int) := by exact_mod_cast hL
  have hL0 : (0 : Int) ≤ (ws.length : Int) := le_of_lt hLn
  rw [Int.fdiv_eq_ediv pot hL0, Int.fmod_eq_emod pot hL0]
  rw [winner_fold_eq _ _ ws hnd]
  rw [map_lookup_enum_pairs (fun i => pot / (ws.length : Int)
      + if (i : Int) < pot % (ws.length : Int) then 1 else 0) ws 0 hnd]
  have hfst : (ws.enumFrom 0).map (fun iw => (iw.1 : Nat)) = List.range ws.length := by
    have h := List.enumFrom_map_fst 0 ws
    rw [← List.range_eq_range'] at h
    have hcongr : ∀ iw ∈ ws.enumFrom 0, (fun iw : Nat × Int => iw.1) iw = Prod.fst iw :=
      fun iw _ => rfl
    rw [List.map_congr_left hcongr, h]
  have hmm : (ws.enumFrom 0).map (fun iw => pot / (ws.length : Int)
      + if (iw.1 : Int) < pot % (ws.length : Int) then 1 else 0)
      = (List.range ws.length).map (fun (i : Nat) => pot / (ws.length : Int)
          + if (i : Int) < pot % (ws.length : Int) then 1 else 0) := by
    rw [← hfst, List.map_map]
    rfl
  rw [hmm, sum_base_extra _ _ (Int.emod_nonneg pot (by omega)) ws.length]
  rw [min_eq_right (le_of_lt (Int.emod_lt_of_pos pot hLn))]
  exact Int.ediv_add_emod pot (ws.length : Int)

/-- Claim C1: for every non-empty evaluations dict (with the distinct keys a
Python dict guarantees) and every non-negative pot, `_calculate_winnings`
yields a non-empty winners list, assigns each winner either the base share
`pot fdiv |winners|` or the base share plus one extra chip, and the winners'
entries in `winnings_by_player` sum exactly to the pot — no leftover chip. -/
theorem winners_split_sums_to_pot {H : Type} [LinearOrder H]
    (ev : List (Int × H × String)) (pot : Int) (pl : List PlayerData)
    (hne : ev ≠ []) (hnd : (ev.map Prod.fst).Nodup) (hpot : 0 ≤ pot) :
    (calculate_winnings ev pot pl).1 ≠ [] ∧
    (∀ w ∈ (calculate_winnings ev pot pl).1,
      dictGet (calculate_winnings ev pot pl).2.1 w
          = some (pot.fdiv (((calculate_winnings ev pot pl).1.length : Int))) ∨
      dictGet (calculate_winnings ev pot pl).2.1 w
          = some (pot.fdiv (((calculate_winnings ev pot pl).1.length : Int)) + 1)) ∧
    ((calculate_winnings ev pot pl).1.map
        (fun w => (dictGet (calculate_winnings ev pot pl).2.1 w).getD 0)).sum = pot := by
  cases ev with
  | nil => exact absurd rfl hne
  | cons e es =>
      simp only [calculate_winnings]
      set W := winners_of (e :: es) (best_of e es) with hW
      set A := pot.fdiv ((W.length : Int)) with hA
      set B := pot.fmod ((W.length : Int)) with hB
      have hWnd : W.Nodup := winners_of_nodup _ hnd
      have hWne : W ≠ [] := winners_of_ne_nil e es
      refine ⟨hWne, ?_, ?_⟩
      · intro w hw
        obtain ⟨⟨i, hi⟩, hget⟩ := List.mem_iff_get.mp hw
        have h1 := winner_fold_lookup A B W hWnd i hi
        have hsome : (dictGet (winner_fold A B W) (W.get ⟨i, hi⟩)).isSome = true := by
          rw [h1]; rfl
        have h2 := loss_fold_preserve pl (winner_fold A B W) (W.get ⟨i, hi⟩) hsome
        rw [← hget, h2, h1]
        by_cases hc : (i : Int) < B
        · rw [if_pos hc]
          exact Or.inr rfl
        · rw [if_neg hc]
          exact Or.inl (by rw [add_zero])
      · have hpoint : ∀ w ∈ W,
            (dictGet (loss_fold pl (winner_fold A B W)) w).getD 0
              = (dictGet (winner_fold A B W) w).getD 0 := by
          intro w hw
          have hsome : (dictGet (winner_fold A B W) w).isSome = true := by
            rw [dictGet_isSome_iff, winner_fold_keys A B W hWnd]
            exact hw
          rw [loss_fold_preserve pl _ w hsome]
        rw [List.map_congr_left hpoint]
        exact winner_fold_sum pot W hWnd hWne

theorem winners_split_sums_to_pot_witness :
    ([((1 : Int), (7 : Nat), "s"), ((2 : Int), (7 : Nat), "t")]
        ≠ ([] : List (Int × Nat × String))) ∧
    (0 : Int) ≤ 201 ∧
    (dictGet (calculate_winnings [((1 : Int), (7 : Nat), "s"), ((2 : Int), (7 : Nat), "t")]
          201 []).2.1 1 = some (Int.fdiv 201 2) ∨
     dictGet (calculate_winnings [((1 : Int), (7 : Nat), "s"), ((2 : Int), (7 : Nat), "t")]
          201 []).2.1 1 = some (Int.fdiv 201 2 + 1)) := by
  refine ⟨by decide, by decide, ?_⟩
  have h := winners_split_sums_to_pot
    [((1 : Int), (7 : Nat), "s"), ((2 : Int), (7 : Nat), "t")] 201 []
    (by decide) (by decide) (by decide)
  exact h.2.1 1 (by decide)

/-- Claim C2, counterexample: with two tied winners whose evaluations dict
lists player 2 before player 1 and pot 201, the code reports the winners as
`[2, 1]` — the dict insertion order, NOT ascending player-ID order — and gives
the extra odd chip to player 2 (the first-listed winner), not to the lowest
player ID: player 1 receives 100, not 101. -/
theorem winner_order_counterexample :
    (calculate_winnings [((2 : Int), (7 : Nat), "s"), ((1 : Int), (7 : Nat), "t")] 201 []).1
        = [2, 1] ∧
    (calculate_winnings [((2 : Int), (7 : Nat), "s"), ((1 : Int), (7 : Nat), "t")] 201 []).1
        ≠ [1, 2] ∧
    dictGet (calculate_winnings [((2 : Int), (7 : Nat), "s"), ((1 : Int), (7 : Nat), "t")]
        201 []).2.1 1 = some 100 ∧
    dictGet (calculate_winnings [((2 : Int), (7 : Nat), "s"), ((1 : Int), (7 : Nat), "t")]
        201 []).2.1 1 ≠ some 101 ∧
    dictGet (calculate_winnings [((2 : Int), (7 : Nat), "s"), ((1 : Int), (7 : Nat), "t")]
        201 []).2.1 2 = some 101 := by
  refine ⟨?_, by decide, ?_, by decide, ?_⟩ <;> decide

/-- Claim C2, amended: the winners list preserves the evaluations dict's
insertion order (it is a sublist of the dict's key sequence, i.e. the order
the non-folded players appeared in the input), and the first
`pot fmod |winners|` winners IN THAT ORDER each receive one chip beyond the
base share `pot fdiv |winners|`; ascending-player-ID order (odd chips to the
lowest IDs) holds only when the evaluations happen to be listed in ascending
ID order. -/
theorem winners_follow_input_order {H : Type} [LinearOrder H]
    (ev : List (Int × H × String)) (pot : Int) (pl : List PlayerData)
    (hne : ev ≠ []) (hnd : (ev.map Prod.fst).Nodup) :
    (calculate_winnings ev pot pl).1.Sublist (ev.map Prod.fst) ∧
    ∀ i (hi : i < (calculate_winnings ev pot pl).1.length),
      dictGet (calculate_winnings ev pot pl).2.1 ((calculate_winnings ev pot pl).1.get ⟨i, hi⟩)
        = some (pot.fdiv (((calculate_winnings ev pot pl).1.length : Int))
            + if (i : Int) < pot.fmod (((calculate_winnings ev pot pl).1.length : Int))
              then 1 else 0) := by
  cases ev with
  | nil => exact absurd rfl hne
  | cons e es =>
      simp only [calculate_winnings]
      set W := winners_of (e :: es) (best_of e es) with hW
      set A := pot.fdiv ((W.length : Int)) with hA
      set B := pot.fmod ((W.length : Int)) with hB
      have hWnd : W.Nodup := winners_of_nodup _ hnd
      refine ⟨winners_of_sublist (e :: es) (best_of e es), ?_⟩
      intro i hi
      have h1 := winner_fold_lookup A B W hWnd i hi
      have hsome : (dictGet (winner_fold A B W) (W.get ⟨i, hi⟩)).isSome = true := by
        rw [h1]; rfl
      rw [loss_fold_preserve pl (winner_fold A B W) (W.get ⟨i, hi⟩) hsome, h1]

theorem winners_follow_input_order_witness :
    (calculate_winnings [((2 : Int), (7 : Nat), "s"), ((1 : Int), (7 : Nat), "t")] 3 []).1.Sublist
        ([((2 : Int), (7 : Nat), "s"), ((1 : Int), (7 : Nat), "t")].map Prod.fst) ∧
    dictGet (calculate_winnings [((2 : Int), (7 : Nat), "s"), ((1 : Int), (7 : Nat), "t")]
        3 []).2.1 2 = some 2 ∧
    dictGet (calculate_winnings [((2 : Int), (7 : Nat), "s"), ((1 : Int), (7 : Nat), "t")]
        3 []).2.1 1 = some 1 := by
  have h := winners_follow_input_order
    [((2 : Int), (7 : Nat), "s"), ((1 : Int), (7 : Nat), "t")] 3 [] (by decide) (by decide)
  exact ⟨h.1, h.2 0 (by decide), h.2 1 (by decide)⟩

/-- Claim C3: a player marked folded (or holding no hole cards) is never
evaluated — its id never enters the evaluations dict — and never appears in
the winners list, for EVERY strength oracle, in particular oracles under which
that player's hand would rank strictly above every other hand. -/
theorem folded_player_never_wins {H : Type} [LinearOrder H]
    (evalFn : String → String → H × String) (pl : List PlayerData) (board : String) (pid : Int)
    (h : ∀ p ∈ pl, p.player_id = pid → p.hole_cards.isEmpty = true ∨ p.folded = true) :
    pid ∉ (evaluate_all_hands evalFn pl board).map Prod.fst ∧
    ∀ pot : Int, pid ∉ (calculate_winnings (evaluate_all_hands evalFn pl board) pot pl).1 := by
  have hkey : pid ∉ (evaluate_all_hands evalFn pl board).map Prod.fst := by
    intro hk
    obtain ⟨p, hp, hpid, hcond⟩ := mem_keys_evaluate evalFn pl board pid hk
    rcases h p hp hpid with h1 | h1
    · rw [h1] at hcond
      simp at hcond
    · rw [h1] at hcond
      simp at hcond
  exact ⟨hkey, fun pot hmem => hkey (calc_winners_subset _ pot pl pid hmem)⟩

theorem folded_player_never_wins_witness :
    (1 : Int) ∉ (evaluate_all_hands c3_eval_fn c3_players ("4h5s6c7h8d")).map Prod.fst ∧
    (1 : Int) ∉ (calculate_winnings (evaluate_all_hands c3_eval_fn c3_players ("4h5s6c7h8d"))
        100 c3_players).1 := by
  have h := folded_player_never_wins c3_eval_fn c3_players ("4h5s6c7h8d") 1 (by decide)
  exact ⟨h.1, h.2 100⟩

/-- Claim C4: settlement on an empty evaluations dict (all players folded)
never fails and returns empty winners, an empty winnings map — so no loss
entries are added for any player of the players list — and an empty
best-hands map, for every pot and every players list. -/
theorem empty_evaluations_empty_result {H : Type} [LinearOrder H]
    (pot : Int) (pl : List PlayerData) :
    calculate_winnings ([] : List (Int × H × String)) pot pl = ([], [], []) := rfl

/-- Claim C9: settlement is deterministic — two calls of `_calculate_winnings`
on identical evaluations, pot size and players list return identical winners,
winnings and best-hands maps.  The embedded function is pure, faithfully to
the source, which reads no state outside its arguments. -/
theorem settlement_deterministic {H : Type} [LinearOrder H]
    (ev₁ ev₂ : List (Int × H × String)) (pot₁ pot₂ : Int) (pl₁ pl₂ : List PlayerData)
    (he : ev₁ = ev₂) (hp : pot₁ = pot₂) (hl : pl₁ = pl₂) :
    calculate_winnings ev₁ pot₁ pl₁ = calculate_winnings ev₂ pot₂ pl₂ := by
  rw [he, hp, hl]

theorem settlement_deterministic_witness :
    calculate_winnings [((1 : Int), (3 : Nat), "p")] 5 []
      = calculate_winnings [((1 : Int), (3 : Nat), "p")] 5 [] :=
  settlement_deterministic _ _ _ _ _ _ rfl rfl rfl

/-- Claim C6, counterexample: in a settled hand with one evaluated player
(player 1, who wins the pot) the non-winning player 2, whose only recorded
action is a `call` with amount -50 (the unvalidated `amount` field accepts
negative ints), receives the POSITIVE entry +50 in `winnings_by_player`: the
estimated contribution sums to -50 and the loop stores its negation, so the
claimed non-positivity fails. -/
theorem nonwinner_entry_positive_counterexample :
    (2 : Int) ∉ (calculate_winnings [((1 : Int), (5 : Nat), "h")] 10
        [⟨2, 0, "KhQh", [⟨"call", -50⟩], false⟩]).1 ∧
    dictGet (calculate_winnings [((1 : Int), (5 : Nat), "h")] 10
        [⟨2, 0, "KhQh", [⟨"call", -50⟩], false⟩]).2.1 2 = some 50 ∧
    ¬ ((50 : Int) ≤ 0) := by
  refine ⟨?_, ?_, ?_⟩ <;> decide

/-- Claim C6, amended: in a settled hand with at least one evaluated player,
every non-winning player of the players list receives the negated estimated
contribution of the first listed player bearing its player ID (itself, when
IDs are unique), and that entry is non-positive provided every recorded action
amount is non-negative. -/
theorem nonwinner_entries_nonpositive {H : Type} [LinearOrder H]
    (ev : List (Int × H × String)) (pot : Int) (pl : List PlayerData)
    (hne : ev ≠ []) (hnd : (ev.map Prod.fst).Nodup)
    (hamt : ∀ p ∈ pl, ∀ a ∈ p.actions, 0 ≤ a.amount)
    (p : PlayerData) (hp : p ∈ pl)
    (hnw : p.player_id ∉ (calculate_winnings ev pot pl).1) :
    ∃ q ∈ pl, q.player_id = p.player_id ∧
      dictGet (calculate_winnings ev pot pl).2.1 p.player_id
          = some (-(estimate_player_contribution q)) ∧
      -(estimate_player_contribution q) ≤ 0 := by
  cases ev with
  | nil => exact absurd rfl hne
  | cons e es =>
      simp only [calculate_winnings] at hnw ⊢
      set W := winners_of (e :: es) (best_of e es) with hW
      set A := pot.fdiv ((W.length : Int)) with hA
      set B := pot.fmod ((W.length : Int)) with hB
      have hWnd : W.Nodup := winners_of_nodup _ hnd
      have hnone : dictGet (winner_fold A B W) p.player_id = none := by
        have hns : ¬ (dictGet (winner_fold A B W) p.player_id).isSome = true := by
          rw [dictGet_isSome_iff, winner_fold_keys A B W hWnd]
          exact hnw
        exact Option.not_isSome_iff_eq_none.mp hns
      obtain ⟨q, hq, hqid, hqget⟩ :=
        loss_fold_adds pl (winner_fold A B W) p.player_id hnone ⟨p, hp, rfl⟩
      exact ⟨q, hq, hqid, hqget, neg_nonpos.mpr (estimate_nonneg q (hamt q hq))⟩

theorem nonwinner_entries_nonpositive_witness :
    dictGet (calculate_winnings [((1 : Int), (5 : Nat), "h")] 10
        [⟨2, 1, "KhQh", [], false⟩]).2.1 2 = some (-20) ∧ (-20 : Int) ≤ 0 := by
  obtain ⟨q, hq, hqid, hget, hle⟩ := nonwinner_entries_nonpositive
    [((1 : Int), (5 : Nat), "h")] 10 [⟨2, 1, "KhQh", [], false⟩]
    (by decide) (by decide) (by decide)
    ⟨2, 1, "KhQh", [], false⟩ (by decide) (by decide)
  rw [List.mem_singleton] at hq
  subst hq
  exact ⟨hget, by decide⟩

/-- Claim C7, counterexample: pot 0 is non-negative and the evaluations are
valid and non-empty, yet the request boundary rejects it: `pot_size` is
declared `Field(..., gt=0)`, so a zero pot fails validation with InvalidInput
instead of settling. -/
theorem zero_pot_rejected_counterexample :
    settle_hand_request [((1 : Int), (5 : Nat), "h")] 0 [] = Except.error ("InvalidInput") ∧
    (0 : Int) ≤ 0 := ⟨rfl, by decide⟩

/-- Claim C7, amended: a request with a negative pot fails with InvalidInput
(raised by the `gt=0` field constraint, translated to a 400 client error), and
a request with a strictly positive pot and valid evaluations never fails —
settlement returns the `_calculate_winnings` result.  A zero pot, though
non-negative, is also rejected by the same `gt=0` constraint;
`_calculate_winnings` itself performs no pot check and never fails. -/
theorem pot_boundary_behavior {H : Type} [LinearOrder H]
    (ev : List (Int × H × String)) (pot : Int) (pl : List PlayerData) :
    (pot < 0 → settle_hand_request ev pot pl = Except.error ("InvalidInput")) ∧
    (0 < pot → settle_hand_request ev pot pl = Except.ok (calculate_winnings ev pot pl)) := by
  constructor
  · intro h
    simp only [settle_hand_request]
    rw [if_neg (by omega)]
  · intro h
    simp only [settle_hand_request]
    rw [if_pos h]

theorem pot_boundary_behavior_witness :
    settle_hand_request [((1 : Int), (5 : Nat), "x")] (-1) [] = Except.error ("InvalidInput") ∧
    settle_hand_request [((1 : Int), (5 : Nat), "x")] 7 []
      = Except.ok ([1], [(1, 7)], [("1", "x")]) := by
  constructor
  · exact (pot_boundary_behavior [((1 : Int), (5 : Nat), "x")] (-1) []).1 (by omega)
  · rw [(pot_boundary_behavior [((1 : Int), (5 : Nat), "x")] 7 []).2 (by omega),
      show calculate_winnings [((1 : Int), (5 : Nat), "x")] 7 []
          = ([1], [(1, 7)], [("1", "x")]) from by decide]

/-- Claim C10, counterexample: a non-winning player at position 0 whose only
recorded action is a `call` with amount -5 has no counted action with a
positive amount, yet the reported loss is +5 (the negated total -5), not the 0
the claim prescribes for positions other than 1 and 2: the code's fallback
guard is `total == 0`, not "no positive counted action". -/
theorem blind_fallback_counterexample :
    has_positive_counted_action c10_player = false ∧
    c10_player.position ≠ 2 ∧ c10_player.position ≠ 1 ∧
    -(estimate_player_contribution c10_player) = 5 ∧ (5 : Int) ≠ 0 ∧
    dictGet (calculate_winnings [((9 : Int), (5 : Nat), "h")] 10 [c10_player]).2.1 1
      = some 5 := by
  refine ⟨?_, ?_, ?_, ?_, ?_, ?_⟩ <;> decide

/-- Claim C10, amended: for every non-winning player (unique among the listed
ids) whose counted `call`/`raise`/`bet`/`all_in` amounts sum to zero —
equivalently, under non-negative amounts, who has no such action with a
positive amount — the reported loss is exactly -40 if the player's `position`
equals 2 and -20 if it equals 1, and 0 for any other position: hardcoded
constants used regardless of the hand's actual `small_blind` / `big_blind`
values, which `_estimate_player_contribution` never receives. -/
theorem blind_fallback_hardcoded {H : Type} [LinearOrder H]
    (ev : List (Int × H × String)) (pot : Int) (pl : List PlayerData) (p : PlayerData)
    (hne : ev ≠ []) (hnd : (ev.map Prod.fst).Nodup) (hp : p ∈ pl)
    (hnw : p.player_id ∉ (calculate_winnings ev pot pl).1)
    (hfirst : ∀ q ∈ pl, q.player_id = p.player_id → q = p)
    (h0 : action_total p = 0) :
    dictGet (calculate_winnings ev pot pl).2.1 p.player_id
      = some (if p.position = 2 then (-40 : Int) else if p.position = 1 then -20 else 0) := by
  cases ev with
  | nil => exact absurd rfl hne
  | cons e es =>
      simp only [calculate_winnings] at hnw ⊢
      set W := winners_of (e :: es) (best_of e es) with hW
      set A := pot.fdiv ((W.length : Int)) with hA
      set B := pot.fmod ((W.length : Int)) with hB
      have hWnd : W.Nodup := winners_of_nodup _ hnd
      have hnone : dictGet (winner_fold A B W) p.player_id = none := by
        have hns : ¬ (dictGet (winner_fold A B W) p.player_id).isSome = true := by
          rw [dictGet_isSome_iff, winner_fold_keys A B W hWnd]
          exact hnw
        exact Option.not_isSome_iff_eq_none.mp hns
      obtain ⟨q, hq, hqid, hqget⟩ :=
        loss_fold_adds pl (winner_fold A B W) p.player_id hnone ⟨p, hp, rfl⟩
      rw [hfirst q hq hqid] at hqget
      rw [hqget]
      congr 1
      simp only [estimate_player_contribution, h0]
      by_cases h2 : p.position = 2
      · simp [h2]
      · by_cases h1 : p.position = 1
        · simp [h1, h2]
        · simp [h1, h2]

theorem blind_fallback_hardcoded_witness :
    dictGet (calculate_winnings [((9 : Int), (5 : Nat), "x")] 60
        [⟨3, 2, "AhKs", [], false⟩]).2.1 3 = some (-40) := by
  have h := blind_fallback_hardcoded [((9 : Int), (5 : Nat), "x")] 60
    [⟨3, 2, "AhKs", [], false⟩] ⟨3, 2, "AhKs", [], false⟩
    (by decide) (by decide) (by decide) (by decide) (by decide) (by decide)
  exact h

/-- Claim C5 (code bug evidence): a request in which the card `Ah` appears in
two different players' hole cards — a duplicate across the combined
board-plus-hole cards — PASSES `HandRequest` validation and proceeds to
ranking.  The cross board/hole duplicate check of `validate_players`
(hand.py lines 126-142) is dead code: it is guarded by
`if 'board_cards' in values`, but pydantic validates fields in declaration
order and `players` (line 93) precedes `board_cards` (line 94), so `values`
never contains `board_cards` when the validator runs.  The spec requires such
requests to fail with InvalidInput. -/
theorem duplicate_cards_accepted :
    validate_hand_request [⟨1, 0, "AhKs", 100, []⟩, ⟨2, 1, "AhQd", 100, []⟩]
        ("2c3d4h5s6c") 100 20 40 = true ∧
    ¬ (all_card_tokens [⟨1, 0, "AhKs", 100, []⟩, ⟨2, 1, "AhQd", 100, []⟩]
        ("2c3d4h5s6c")).Nodup := by
  constructor
  · decide
  · decide

/-- Claim C8: a request in which some player supplies a hole-card string
shorter than 4 characters (fewer than 2 cards), or whose board string is not
exactly 10 characters (not exactly 5 cards), always fails `HandRequest`
validation — raising InvalidInput instead of evaluating or silently skipping
that player. -/
theorem short_hole_or_bad_board_rejected (players : List PlayerReq) (board : String)
    (pot sb bb : Int)
    (h : (∃ p ∈ players, p.hole_cards.length < 4) ∨ board.length ≠ 10) :
    validate_hand_request players board pot sb bb = false := by
  rcases h with ⟨p, hp, hlen⟩ | hb
  · have hpf : validate_player_req p = false := by
      have hnt : ¬ (validate_player_req p = true) := by
        intro ht
        simp only [validate_player_req, Bool.and_eq_true, decide_eq_true_eq] at ht
        obtain ⟨⟨⟨h4, _⟩, _⟩, _⟩ := ht
        omega
      simpa using hnt
    have hallf : players.all validate_player_req = false := by
      have hnt : ¬ (players.all validate_player_req = true) := by
        intro ht
        rw [List.all_eq_true] at ht
        have hcontra := ht p hp
        rw [hpf] at hcontra
        exact Bool.false_ne_true hcontra
      simpa using hnt
    simp [validate_hand_request, hallf]
  · have hbf : validate_board_cards board = false := by
      have hnt : ¬ (validate_board_cards board = true) := by
        intro ht
        simp only [validate_board_cards, Bool.and_eq_true, decide_eq_true_eq] at ht
        exact hb ht.1.1
      simpa using hnt
    simp [validate_hand_request, hbf]

theorem short_hole_or_bad_board_rejected_witness :
    validate_hand_request [⟨1, 0, "Ah", 100, []⟩, ⟨2, 1, "KdQs", 100, []⟩]
        ("2c3d4h5s6c") 100 20 40 = false ∧
    validate_hand_request [⟨1, 0, "AhKs", 100, []⟩, ⟨2, 1, "KdQs", 100, []⟩]
        ("2c3d4h5s") 100 20 40 = false := by
  constructor
  · exact short_hole_or_bad_board_rejected _ _ _ _ _ (Or.inl (by decide))
  · exact short_hole_or_bad_board_rejected _ _ _ _ _ (Or.inr (by decide))
